import Mathlib

/-!
Shallow embedding of `src/mysqlcli/sqlcompleter.py` (class `SQLCompleter`).

Modelling conventions:
* Python dicts become association lists `List (String × α)`; assignment is
  replace-in-place-or-append (`dictInsert`), which preserves Python's
  insertion-order semantics for `.keys()`.
* Python sets become duplicate-free `List String` with insertion-order
  `pySetAdd`; `set.update(string)` iterates the string and therefore inserts
  its characters as one-character strings (`pySetUpdateChars`), exactly as
  CPython does.
* The mutable `SQLCompleter` object becomes an explicit `CatalogState` record
  threaded through each method; methods that can raise a Python `KeyError`
  return the state at the moment of the raise together with `Option String`
  holding the offending key (Python exceptions do not roll back prior
  mutations of the object).
* `prompt_toolkit.completion.Completion(item, -len(text))` becomes the record
  `Completion` storing the matched text and the magnitude of the negative
  start position (`deleteBackCount`).
* `py_str_lower` (ASCII case folding over the character list) stands in for
  Python's `str.lower`; every statement below applies it uniformly to both
  sides, so no claim's outcome depends on non-ASCII case-folding
  differences.
-/

/-- A completion candidate: the text to insert and how many characters before
the cursor it replaces (the magnitude of prompt_toolkit's negative
`start_position`). -/
structure Completion where
  text : String
  deleteBackCount : Nat
deriving DecidableEq, Repr

/-- The static class attribute `SQLCompleter.keywords`. -/
def keywords_static : List String :=
  ["ACCESS", "ADD", "ALL", "ALTER TABLE", "AND", "ANY", "AS",
   "ASC", "AUDIT", "BETWEEN", "BY", "CASE", "CHAR", "CHECK",
   "CLUSTER", "COLUMN", "COMMENT", "COMPRESS", "CONNECT", "COPY",
   "CREATE", "CURRENT", "DATABASE", "DATE", "DECIMAL", "DEFAULT",
   "DELETE FROM", "DELIMITER", "DESC", "DESCRIBE", "DISTINCT", "DROP",
   "ELSE", "ENCODING", "ESCAPE", "EXCLUSIVE", "EXISTS", "EXTENSION",
   "FILE", "FLOAT", "FOR", "FORMAT", "FORCE_QUOTE", "FORCE_NOT_NULL",
   "FREEZE", "FROM", "FULL", "FUNCTION", "GRANT", "GROUP BY",
   "HAVING", "HEADER", "IDENTIFIED", "IMMEDIATE", "IN", "INCREMENT",
   "INDEX", "INITIAL", "INSERT INTO", "INTEGER", "INTERSECT", "INTO",
   "IS", "JOIN", "LEFT", "LEVEL", "LIKE", "LIMIT", "LOCK", "LONG",
   "MAXEXTENTS", "MINUS", "MLSLABEL", "MODE", "MODIFY", "NOAUDIT",
   "NOCOMPRESS", "NOT", "NOWAIT", "NULL", "NUMBER", "OIDS", "OF",
   "OFFLINE", "ON", "ONLINE", "OPTION", "OR", "ORDER BY", "OUTER",
   "OWNER", "PCTFREE", "PRIMARY", "PRIOR", "PRIVILEGES", "QUOTE",
   "RAW", "RENAME", "RESOURCE", "REVOKE", "RIGHT", "ROW", "ROWID",
   "ROWNUM", "ROWS", "SELECT", "SESSION", "SET", "SHARE", "SIZE",
   "SMALLINT", "START", "SUCCESSFUL", "SYNONYM", "SYSDATE", "TABLE",
   "TEMPLATE", "THEN", "TO", "TRIGGER", "UID", "UNION", "UNIQUE",
   "UPDATE", "USE", "USER", "VALIDATE", "VALUES", "VARCHAR",
   "VARCHAR2", "VIEW", "WHEN", "WHENEVER", "WHERE", "WITH"]

/-- The static class attribute `SQLCompleter.functions`. -/
def functions_static : List String :=
  ["AVG", "COUNT", "DISTINCT", "FIRST", "FORMAT", "LAST",
   "LCASE", "LEN", "MAX", "MIN", "MID", "NOW", "ROUND", "SUM", "TOP",
   "UCASE"]

/-- Association-list model of Python dict lookup (`d[k]` / `k in d`). -/
def dictLookup {α : Type} (d : List (String × α)) (k : String) : Option α :=
  (d.find? (fun p => p.1 == k)).map Prod.snd

/-- Association-list model of Python dict assignment `d[k] = v`: replace the
value in place if the key exists, else append (insertion order preserved). -/
def dictInsert {α : Type} : List (String × α) → String → α → List (String × α)
  | [], k, v => [(k, v)]
  | (k', v') :: rest, k, v =>
      if k' == k then (k', v) :: rest else (k', v') :: dictInsert rest k v

/-- The keys of a Python dict, in insertion order (`d.keys()`). -/
def dictKeys {α : Type} (d : List (String × α)) : List String :=
  d.map Prod.fst

/-- Python `set.add`: insert if absent. -/
def pySetAdd (s : List String) (x : String) : List String :=
  if s.contains x then s else s ++ [x]

/-- Python `set(xs)` for a list of strings. -/
def pySetOfList (l : List String) : List String :=
  l.foldl pySetAdd []

/-- Python `set.update(xs)` with a list of strings. -/
def pySetUpdateList (s : List String) (l : List String) : List String :=
  l.foldl pySetAdd s

/-- Python `set.update(str)` with a single STRING argument: iterating a string
yields its characters, so each character is added as a one-character string.
This is what `extend_relations` and `extend_columns` actually do to
`all_completions`. -/
def pySetUpdateChars (s : List String) (x : String) : List String :=
  x.data.foldl (fun acc c => pySetAdd acc (String.mk [c])) s

/-- First character class of the regex `^[_a-z][_a-z0-9\$]*$`. -/
def isNameStart (c : Char) : Bool :=
  c == '_' || ('a' ≤ c && c ≤ 'z')

/-- Repeated character class of the regex `^[_a-z][_a-z0-9\$]*$`. -/
def isNameCont (c : Char) : Bool :=
  c == '_' || ('a' ≤ c && c ≤ 'z') || ('0' ≤ c && c ≤ '9') || c == '$'

/-- Whether a character list is matched by `[_a-z][_a-z0-9\$]*` in full. -/
def name_pattern_core : List Char → Bool
  | [] => false
  | c :: cs => isNameStart c && cs.all isNameCont

/-- `self.name_pattern.match(name)` succeeding, for the compiled pattern
`^[_a-z][_a-z0-9\$]*$`. Python's `$` (without `re.MULTILINE`) matches at the
end of the string and also immediately before a single trailing newline, so a
name consisting of a well-formed identifier followed by one `'\n'` also
matches. -/
def name_pattern_match (s : String) : Bool :=
  name_pattern_core s.data ||
    (s.data.getLast? == some '\n' && name_pattern_core s.data.dropLast)

/-- `SQLCompleter.escape_name`: quote the name iff it is non-empty (Python
truthiness of `name`) and the regex does not match. -/
def escape_name (name : String) : String :=
  if name.length != 0 && !(name_pattern_match name) then
    "\"" ++ name ++ "\""
  else name

/-- `SQLCompleter.unescape_name`: strip exactly one pair of surrounding
double quotes when both the first and last characters are `"`. -/
def unescape_name (name : String) : String :=
  if name.length != 0 && name.data.head? == some '"'
      && name.data.getLast? == some '"' then
    String.mk ((name.data.drop 1).dropLast)
  else name

/-- `SQLCompleter.escaped_names`: element-wise `escape_name`. -/
def escaped_names (names : List String) : List String :=
  names.map escape_name

/-- The two relation kinds stored in `dbmetadata` (`'tables'` / `'views'`). -/
inductive RelKind where
  | tables
  | views
deriving DecidableEq, Repr

/-- The mutable state of a `SQLCompleter` instance. `keywords` is mutable
because `extend_keywords` extends it in place; `functions_static` has no
extender and stays a constant. `functions` is the nested
schema → function → `None`-placeholder map. -/
structure CatalogState where
  keywords : List String
  special_commands : List String
  databases : List String
  tables : List (String × List String)
  views : List (String × List String)
  functions : List (String × List (String × Option Unit))
  all_completions : List String
deriving DecidableEq, Repr

/-- `self.dbmetadata[kind]` for a relation kind. -/
def CatalogState.relmap (st : CatalogState) : RelKind → List (String × List String)
  | .tables => st.tables
  | .views => st.views

/-- Write back `self.dbmetadata[kind]`. -/
def CatalogState.setRelmap (st : CatalogState) : RelKind → List (String × List String) → CatalogState
  | .tables, m => { st with tables := m }
  | .views, m => { st with views := m }

/-- The state built by `SQLCompleter.__init__`. -/
def initState : CatalogState :=
  { keywords := keywords_static
    special_commands := []
    databases := []
    tables := []
    views := []
    functions := []
    all_completions := pySetOfList (keywords_static ++ functions_static) }

/-- `SQLCompleter.extend_special_commands`. -/
def extend_special_commands (special_commands : List String) (st : CatalogState) : CatalogState :=
  { st with special_commands := st.special_commands ++ special_commands }

/-- `SQLCompleter.extend_database_names`. -/
def extend_database_names (databases : List String) (st : CatalogState) : CatalogState :=
  { st with databases := st.databases ++ escaped_names databases }

/-- `SQLCompleter.extend_keywords`: note that it extends the (class-level)
keyword list itself, and adds the new keywords to the vocabulary. -/
def extend_keywords (additional_keywords : List String) (st : CatalogState) : CatalogState :=
  { st with keywords := st.keywords ++ additional_keywords
            all_completions := pySetUpdateList st.all_completions additional_keywords }

/-- `SQLCompleter.extend_relations`. In the source each row is a 1-tuple
`(rel_name,)`; a row is modelled by its sole component. For each escaped name
the entry in the kind's map is set (overwritten) to `['*']`, and
`self.all_completions.update(relname[0])` adds the CHARACTERS of the escaped
name to the vocabulary (a string is an iterable of characters). -/
def extend_relations (data : List String) (kind : RelKind) (st : CatalogState) : CatalogState :=
  (data.map escape_name).foldl
    (fun st relname =>
      let st := st.setRelmap kind (dictInsert (st.relmap kind) relname ["*"])
      { st with all_completions := pySetUpdateChars st.all_completions relname })
    st

/-- Loop of `extend_columns`, over already-escaped pairs. A missing relation
key raises `KeyError(relname)`: the loop stops, returning the state as already
mutated by the preceding iterations together with the offending key. On each
successful iteration the column is appended to the relation's column list and
`self.all_completions.update(column)` adds the column's CHARACTERS to the
vocabulary. -/
def extend_columns_go (kind : RelKind) :
    List (String × String) → CatalogState → CatalogState × Option String
  | [], st => (st, none)
  | (relname, column) :: rest, st =>
      match dictLookup (st.relmap kind) relname with
      | none => (st, some relname)
      | some cols =>
          let st := st.setRelmap kind (dictInsert (st.relmap kind) relname (cols ++ [column]))
          let st := { st with all_completions := pySetUpdateChars st.all_completions column }
          extend_columns_go kind rest st

/-- `SQLCompleter.extend_columns`: escape every pair up front (the list
comprehension), then run the mutating loop. -/
def extend_columns (column_data : List (String × String)) (kind : RelKind)
    (st : CatalogState) : CatalogState × Option String :=
  extend_columns_go kind (column_data.map (fun p => (escape_name p.1, escape_name p.2))) st

/-- `SQLCompleter.extend_functions`: for each pair, escape both components and
execute `metadata[schema][func] = None`. Python evaluates `metadata[schema]`
first, so a schema that is not yet a key raises `KeyError(schema)` on the
spot (no code path in the module ever creates a schema key). On success the
whole escaped function name is added to the vocabulary via `set.add`. -/
def extend_functions :
    List (String × String) → CatalogState → CatalogState × Option String
  | [], st => (st, none)
  | f :: rest, st =>
      let schema := escape_name f.1
      let func := escape_name f.2
      match dictLookup st.functions schema with
      | none => (st, some schema)
      | some inner =>
          let st := { st with
            functions := dictInsert st.functions schema (dictInsert inner func none)
            all_completions := pySetAdd st.all_completions func }
          extend_functions rest st

/-- `SQLCompleter.reset_completions`: clears databases and the three
`dbmetadata` maps and rebuilds the vocabulary from the CURRENT keyword list
(which `extend_keywords` may have extended) plus the static function list.
`keywords` and `special_commands` themselves are not cleared. -/
def reset_completions (st : CatalogState) : CatalogState :=
  { st with databases := []
            tables := []
            views := []
            functions := []
            all_completions := pySetOfList (st.keywords ++ functions_static) }

/-- Modelled from the spec: the word-extraction primitive
`last_word(text, include='most_punctuations')` lives in the repository's
`packages.parseutils` module, which is not under `src/`. Per the spec's
word-boundary rule it scans backward from the cursor, treating whitespace and
most punctuation as separators, except a fixed allow-list of punctuation
(dots, quotes, backquotes, `_`, `$`) kept inside a token so dotted and quoted
multi-part identifiers are not split. This predicate says whether a character
separates words. -/
def is_word_separator (c : Char) : Bool :=
  c.isWhitespace ||
    (c == '(' || c == ')' || c == ',' || c == ';' || c == ':' ||
     c == '=' || c == '<' || c == '>' || c == '+' || c == '-' ||
     c == '*' || c == '/' || c == '%' || c == '!' || c == '?' ||
     c == '[' || c == ']' || c == '\x7b' || c == '\x7d' ||
     c == '\'' || c == '|' || c == '&' || c == '^' || c == '~' ||
     c == '#' || c == '@')

/-- Modelled from the spec: `last_word` returns the longest suffix of the
text containing no separator character (empty when the text ends in a
separator or is empty). -/
def last_word (text : String) : String :=
  String.mk ((text.data.reverse.takeWhile (fun c => !is_word_separator c)).reverse)

/-- ASCII case folding of one character, as Python's `str.lower` acts on the
identifiers and keywords this completer handles. -/
def py_char_lower (c : Char) : Char :=
  if 'A' ≤ c && c ≤ 'Z' then Char.ofNat (c.toNat + 32) else c

/-- Python `str.lower`, character-wise. -/
def py_str_lower (s : String) : String :=
  String.mk (s.data.map py_char_lower)

/-- Python `hay.find(needle, 0, endLimit)` on character lists: the first
index `i` at which `needle` occurs wholly inside `hay[0:endLimit]`
(`endLimit = none` meaning no bound), or `none` when there is no occurrence
(Python returns `-1`). -/
def py_find_sub (hay needle : List Char) (endLimit : Option Nat) : Option Nat :=
  let e := match endLimit with
           | some e => min e hay.length
           | none => hay.length
  (List.range (hay.length + 1)).find?
    (fun i => decide (i + needle.length ≤ e) && ((hay.drop i).take needle.length == needle))

/-- Python string comparison `a <= b` on the character lists: lexicographic
by code point. (Lean's built-in `String` order is iterator-based and does not
reduce inside the kernel; this structural version does, and is proved
equivalent to the mathematical order below.) -/
def py_chars_le : List Char → List Char → Bool
  | [], _ => true
  | _ :: _, [] => false
  | c :: cs, d :: ds =>
      if c < d then true
      else if d < c then false
      else py_chars_le cs ds

/-- Python `a <= b` on strings. -/
def py_str_le (a b : String) : Bool :=
  py_chars_le a.data b.data

/-- Insert a string into a sorted list, keeping it sorted. -/
def py_ordered_insert (x : String) : List String → List String
  | [] => [x]
  | y :: ys => if py_str_le x y then x :: y :: ys else y :: py_ordered_insert x ys

/-- Python `sorted` on a list of strings: the ascending ordinal
(code-point-lexicographic) order. Equal strings are identical, so every
correct comparison sort — Python's stable one included — produces this same
list. -/
def pySorted : List String → List String
  | [] => []
  | x :: xs => py_ordered_insert x (pySorted xs)

/-- `SQLCompleter.find_matches(text, collection, start_only)`: lower-case the
last word of `text`, iterate the candidates in sorted order, and yield a
`Completion` for every candidate in whose lower-cased form the fragment is
found — only within the first `len(text)` characters when `start_only` is
true (so only a match at position 0 counts), anywhere otherwise. -/
def find_matches (text : String) (collection : List String) (start_only : Bool) : List Completion :=
  let text := py_str_lower (last_word text)
  (pySorted collection).filterMap
    (fun item =>
      let match_end_limit : Option Nat := if start_only then some text.length else none
      match py_find_sub (py_str_lower item).data text.data match_end_limit with
      | some _ => some { text := item, deleteBackCount := text.length }
      | none => none)

/-- `SQLCompleter.populate_scoped_cols(scoped_tbls)`: for each `(table,
alias)` pair, escape the SECOND component (`tbl[1]`), look it up in the
tables map — if found, extend the accumulator and skip the view check — else
in the views map; a `KeyError` in both is swallowed and the entry contributes
nothing. -/
def populate_scoped_cols (scoped_tbls : List (String × String)) (st : CatalogState) : List String :=
  scoped_tbls.foldl
    (fun columns tbl =>
      let relname := escape_name tbl.2
      match dictLookup st.tables relname with
      | some cols => columns ++ cols
      | none =>
          match dictLookup st.views relname with
          | some cols => columns ++ cols
          | none => columns)
    []

/-- A typed suggestion request, as produced by the external classifier
`suggest_type` (the source dispatches on the `'type'` string of a dict). -/
inductive Suggestion where
  | column (tables : List (String × String))
  | function
  | table
  | view
  | alias (aliases : List String)
  | database
  | keyword
  | special
deriving DecidableEq, Repr

/-- `SQLCompleter.get_completions`. The editor document and the external
classifier are out-of-scope collaborators: the word before the cursor and the
classifier's suggestion sequence are taken as inputs. In dumb mode the whole
vocabulary is matched anchored; in smart mode each suggestion is dispatched
to its candidate source and the per-suggestion matches are concatenated. -/
def get_completions (word_before_cursor : String) (suggestions : List Suggestion)
    (smart_completion : Bool) (st : CatalogState) : List Completion :=
  if !smart_completion then
    find_matches word_before_cursor st.all_completions true
  else
    suggestions.foldl
      (fun completions s =>
        match s with
        | .column tables =>
            completions ++ find_matches word_before_cursor (populate_scoped_cols tables st) false
        | .function =>
            completions ++ find_matches word_before_cursor (dictKeys st.functions) true
        | .table =>
            completions ++ find_matches word_before_cursor (dictKeys st.tables) false
        | .view =>
            completions ++ find_matches word_before_cursor (dictKeys st.views) false
        | .alias aliases =>
            completions ++ find_matches word_before_cursor aliases false
        | .database =>
            completions ++ find_matches word_before_cursor st.databases false
        | .keyword =>
            completions ++ find_matches word_before_cursor st.keywords true
        | .special =>
            completions ++ find_matches word_before_cursor st.special_commands true)
      []

/-- The catalog of the spec's end-to-end test: a table `users` with columns
`id`, `name`, `email`, built through the module's own bulk-load calls. -/
def stUsers : CatalogState :=
  (extend_columns [("users", "id"), ("users", "name"), ("users", "email")] RelKind.tables
    (extend_relations ["users"] RelKind.tables initState)).1

/-- The candidate source that claim C6 describes, following the spec's words:
the registered function names, flattened across all schemas of the functions
map. -/
def flatten_function_names (d : List (String × List (String × Option Unit))) : List String :=
  (d.map (fun p => p.2.map Prod.fst)).flatten

/-- A catalog whose functions map holds one schema `sch` containing one
function `myfunc`. -/
def stFn : CatalogState :=
  { initState with functions := [("sch", [("myfunc", none)])] }

/-- The spec's identifier pattern, read as a predicate on the character list:
a first character that is an underscore or lowercase ASCII letter, followed
by zero or more of underscore, lowercase letter, digit, dollar. -/
def SpecNamePatternList (l : List Char) : Prop :=
  ∃ c cs, l = c :: cs ∧ isNameStart c = true ∧ ∀ d ∈ cs, isNameCont d = true

/-- The spec's pattern on a whole string, end-anchored at the very end. -/
def SpecNamePattern (s : String) : Prop :=
  SpecNamePatternList s.data

/-- The pattern as Python's `re` actually applies it: `$` also matches just
before a single trailing newline. -/
def SpecNamePatternPy (s : String) : Prop :=
  SpecNamePatternList s.data ∨
    (s.data.getLast? = some '\n' ∧ SpecNamePatternList s.data.dropLast)

/-- A catalog holding one table `t` with only the `*` sentinel, built through
the module's own bulk-load call. -/
def stT : CatalogState :=
  extend_relations ["t"] RelKind.tables initState

/-! ## Matcher lemmas -/

/-- A list is an infix of another iff it occurs, wholly, at some index. -/
lemma infix_iff_occurs (needle hay : List Char) :
    needle <:+: hay ↔
      ∃ i, i + needle.length ≤ hay.length ∧ (hay.drop i).take needle.length = needle := by
  constructor
  · rintro ⟨s, t, rfl⟩
    refine ⟨s.length, by simp, ?_⟩
    rw [List.append_assoc, List.drop_left, List.take_left]
  · rintro ⟨i, hle, heq⟩
    refine ⟨hay.take i, hay.drop (i + needle.length), ?_⟩
    have h1 : needle ++ hay.drop (i + needle.length) = hay.drop i := by
      conv_rhs => rw [← List.take_append_drop needle.length (hay.drop i)]
      rw [heq, List.drop_drop]
    rw [List.append_assoc, h1, List.take_append_drop]

/-- With the end limit set to the needle's length, Python `find` succeeds iff
the needle is a prefix of the haystack. -/
lemma py_find_start_isSome (hay needle : List Char) :
    (py_find_sub hay needle (some needle.length)).isSome = true ↔ needle <+: hay := by
  unfold py_find_sub
  simp only [List.find?_isSome, List.mem_range, Bool.and_eq_true, decide_eq_true_eq,
    beq_iff_eq]
  constructor
  · rintro ⟨i, _, hle, heq⟩
    have hi0 : i = 0 := by omega
    subst hi0
    rw [List.prefix_iff_eq_take]
    simpa using heq.symm
  · intro hpre
    have hlen := hpre.length_le
    refine ⟨0, by omega, by omega, ?_⟩
    rw [List.prefix_iff_eq_take] at hpre
    simpa using hpre.symm

/-- With no end limit, Python `find` succeeds iff the needle occurs somewhere
in the haystack. -/
lemma py_find_unbounded_isSome (hay needle : List Char) :
    (py_find_sub hay needle none).isSome = true ↔ needle <:+: hay := by
  unfold py_find_sub
  simp only [List.find?_isSome, List.mem_range, Bool.and_eq_true, decide_eq_true_eq,
    beq_iff_eq]
  rw [infix_iff_occurs]
  constructor
  · rintro ⟨i, _, hle, heq⟩
    exact ⟨i, hle, heq⟩
  · rintro ⟨i, hle, heq⟩
    exact ⟨i, by omega, hle, heq⟩

/-- The computable comparator agrees with the mathematical lexicographic
order on character lists. -/
lemma py_chars_le_iff (x : List Char) :
    ∀ y : List Char, py_chars_le x y = true ↔ ¬ List.Lex (· < ·) y x := by
  induction x with
  | nil =>
    intro y
    exact iff_of_true rfl (List.Lex.not_nil_right _ y)
  | cons c cs ih =>
    intro y
    cases y with
    | nil =>
      refine iff_of_false (by simp [py_chars_le]) (fun h => h List.Lex.nil)
    | cons d ds =>
      show (if c < d then true else if d < c then false else py_chars_le cs ds) = true
          ↔ ¬ List.Lex (· < ·) (d :: ds) (c :: cs)
      rcases lt_trichotomy c d with h | h | h
      · rw [if_pos h]
        refine iff_of_true rfl (fun hl => ?_)
        cases hl with
        | cons hl' => exact lt_irrefl _ h
        | rel hr => exact absurd hr (asymm h)
      · subst h
        rw [if_neg (lt_irrefl c), if_neg (lt_irrefl c), ih ds]
        constructor
        · intro hnot hl
          cases hl with
          | cons hl' => exact hnot hl'
          | rel hr => exact lt_irrefl _ hr
        · intro hnot hl
          exact hnot (List.Lex.cons hl)
      · rw [if_neg (asymm h), if_pos h]
        exact iff_of_false (by simp) (fun hnot => hnot (List.Lex.rel h))

/-- The computable comparator agrees with the mathematical string order. -/
lemma py_str_le_iff (a b : String) : py_str_le a b = true ↔ a ≤ b := by
  rw [String.le_iff_toList_le, ← not_lt]
  exact py_chars_le_iff a.data b.data

/-- Membership in an ordered insert. -/
lemma mem_py_ordered_insert (x : String) (l : List String) (b : String) :
    b ∈ py_ordered_insert x l ↔ b = x ∨ b ∈ l := by
  induction l with
  | nil => simp [py_ordered_insert]
  | cons y ys ih =>
    unfold py_ordered_insert
    by_cases h : py_str_le x y
    · rw [if_pos h]
      simp [List.mem_cons]
    · rw [if_neg h]
      simp only [List.mem_cons, ih]
      tauto

/-- Ordered insert is a permutation of consing. -/
lemma perm_py_ordered_insert (x : String) (l : List String) :
    (py_ordered_insert x l).Perm (x :: l) := by
  induction l with
  | nil => exact List.Perm.refl _
  | cons y ys ih =>
    unfold py_ordered_insert
    by_cases h : py_str_le x y
    · rw [if_pos h]
    · rw [if_neg h]
      exact List.Perm.trans (ih.cons y) (List.Perm.swap x y ys)

/-- Ordered insert preserves sortedness. -/
lemma sorted_py_ordered_insert (x : String) (l : List String)
    (h : List.Sorted (fun a b : String => a ≤ b) l) :
    List.Sorted (fun a b : String => a ≤ b) (py_ordered_insert x l) := by
  induction l with
  | nil => simp [py_ordered_insert]
  | cons y ys ih =>
    rw [List.sorted_cons] at h
    obtain ⟨hy, hys⟩ := h
    unfold py_ordered_insert
    by_cases hb : py_str_le x y
    · rw [if_pos hb]
      have hxy : x ≤ y := (py_str_le_iff x y).mp hb
      rw [List.sorted_cons]
      refine ⟨?_, ?_⟩
      · intro b hbmem
        rcases List.mem_cons.mp hbmem with rfl | hbm
        · exact hxy
        · exact le_trans hxy (hy b hbm)
      · rw [List.sorted_cons]
        exact ⟨hy, hys⟩
    · rw [if_neg hb]
      have hyx : y ≤ x :=
        le_of_not_le (fun hle => hb ((py_str_le_iff x y).mpr hle))
      rw [List.sorted_cons]
      refine ⟨?_, ih hys⟩
      intro b hbmem
      rcases (mem_py_ordered_insert x ys b).mp hbmem with rfl | hbm
      · exact hyx
      · exact hy b hbm

/-- `pySorted` is sorted with respect to the string order. -/
lemma pySorted_sorted (l : List String) :
    List.Sorted (fun a b : String => a ≤ b) (pySorted l) := by
  induction l with
  | nil => simp [pySorted]
  | cons x xs ih => exact sorted_py_ordered_insert x (pySorted xs) ih

/-- `pySorted` is a permutation of its input. -/
lemma pySorted_perm (l : List String) : (pySorted l).Perm l := by
  induction l with
  | nil => exact List.Perm.refl _
  | cons x xs ih =>
    exact List.Perm.trans (perm_py_ordered_insert x (pySorted xs)) (ih.cons x)

/-- Projecting the text out of the yielded completions recovers a plain
filter of the candidate list. -/
lemma filterMap_completion_map_text (l : List String) (p : String → Prop)
    [DecidablePred p] (k : Nat) :
    ((l.filterMap (fun item =>
        if p item then some ({ text := item, deleteBackCount := k } : Completion)
        else none)).map Completion.text)
      = l.filter (fun item => decide (p item)) := by
  induction l with
  | nil => rfl
  | cons x xs ih =>
    by_cases h : p x <;> simp [List.filterMap_cons, h, ih, List.filter_cons]

/-- Variant of `py_find_start_isSome` stated with the string-level length, as
it appears in `find_matches`. -/
lemma py_find_start_isSome' (hay : List Char) (frag : String) :
    (py_find_sub hay frag.data (some frag.length)).isSome = true ↔ frag.data <+: hay := by
  have h : frag.length = frag.data.length := rfl
  rw [h]
  exact py_find_start_isSome hay frag.data

/-- The body of `find_matches` for one candidate in anchored mode, rewritten
from the Python `find`-based test to the prefix characterization. -/
lemma find_matches_item_eq_true (frag item : String) :
    (match py_find_sub (py_str_lower item).data frag.data (some frag.length) with
     | some _ => some ({ text := item, deleteBackCount := frag.length } : Completion)
     | none => none)
    = (if frag.data <+: (py_str_lower item).data
       then some ({ text := item, deleteBackCount := frag.length } : Completion)
       else none) := by
  by_cases hs : frag.data <+: (py_str_lower item).data
  · obtain ⟨v, hv⟩ := Option.isSome_iff_exists.mp ((py_find_start_isSome' _ frag).mpr hs)
    rw [hv, if_pos hs]
  · have hnone : py_find_sub (py_str_lower item).data frag.data (some frag.length) = none := by
      cases h : py_find_sub (py_str_lower item).data frag.data (some frag.length) with
      | none => rfl
      | some v => exact absurd ((py_find_start_isSome' _ frag).mp (by rw [h]; rfl)) hs
    rw [hnone, if_neg hs]

/-- The body of `find_matches` for one candidate in substring mode, rewritten
from the Python `find`-based test to the infix characterization. -/
lemma find_matches_item_eq_false (frag item : String) :
    (match py_find_sub (py_str_lower item).data frag.data none with
     | some _ => some ({ text := item, deleteBackCount := frag.length } : Completion)
     | none => none)
    = (if frag.data <:+: (py_str_lower item).data
       then some ({ text := item, deleteBackCount := frag.length } : Completion)
       else none) := by
  by_cases hs : frag.data <:+: (py_str_lower item).data
  · obtain ⟨v, hv⟩ := Option.isSome_iff_exists.mp ((py_find_unbounded_isSome _ _).mpr hs)
    rw [hv, if_pos hs]
  · have hnone : py_find_sub (py_str_lower item).data frag.data none = none := by
      cases h : py_find_sub (py_str_lower item).data frag.data none with
      | none => rfl
      | some v => exact absurd ((py_find_unbounded_isSome _ _).mp (by rw [h]; rfl)) hs
    rw [hnone, if_neg hs]

/-- Claim C1: for every input text, candidate collection and `start_only`
flag, `find_matches` yields — in ascending ordinal (case-sensitive) order of
the original candidate strings — exactly one `Completion` per matching
candidate, whose text is the candidate and whose `deleteBackCount` is the
length of the lower-cased fragment extracted by the last-word rule; a
candidate matches iff its lower-cased form starts with the fragment
(`start_only = true`) or contains it anywhere (`start_only = false`). -/
theorem claim1_find_matches (text : String) (collection : List String) (start_only : Bool) :
    (find_matches text collection start_only =
      (pySorted collection).filterMap (fun item =>
        if (if start_only
            then ((py_str_lower (last_word text)).data <+: (py_str_lower item).data)
            else ((py_str_lower (last_word text)).data <:+: (py_str_lower item).data))
        then some ({ text := item,
                     deleteBackCount := (py_str_lower (last_word text)).length } : Completion)
        else none))
    ∧ List.Sorted (fun a b : String => a ≤ b)
        ((find_matches text collection start_only).map Completion.text)
    ∧ (pySorted collection).Perm collection := by
  have heq : find_matches text collection start_only =
      (pySorted collection).filterMap (fun item =>
        if (if start_only
            then ((py_str_lower (last_word text)).data <+: (py_str_lower item).data)
            else ((py_str_lower (last_word text)).data <:+: (py_str_lower item).data))
        then some ({ text := item,
                     deleteBackCount := (py_str_lower (last_word text)).length } : Completion)
        else none) := by
    cases start_only with
    | true =>
      exact congrArg (List.filterMap · (pySorted collection))
        (funext fun item => find_matches_item_eq_true (py_str_lower (last_word text)) item)
    | false =>
      exact congrArg (List.filterMap · (pySorted collection))
        (funext fun item => find_matches_item_eq_false (py_str_lower (last_word text)) item)
  refine ⟨heq, ?_, pySorted_perm collection⟩
  rw [heq, filterMap_completion_map_text]
  exact List.Pairwise.filter _ (pySorted_sorted collection)

/-! ## Scope resolution -/

/-- Claim C2: `populate_scoped_cols` returns the concatenation, in scope
order, of the full stored column list of each scope entry whose escaped
reference name (`tbl[1]`) is a key of the tables map, or — only when absent
there — of the views map; an entry found in neither contributes nothing, and
nothing is deduplicated. -/
theorem claim2_populate_scoped_cols (scoped_tbls : List (String × String)) (st : CatalogState) :
    populate_scoped_cols scoped_tbls st =
      (scoped_tbls.map (fun tbl =>
        match dictLookup st.tables (escape_name tbl.2) with
        | some cols => cols
        | none => (dictLookup st.views (escape_name tbl.2)).getD [])).flatten := by
  unfold populate_scoped_cols
  suffices h : ∀ (l : List (String × String)) (acc : List String),
      l.foldl (fun columns tbl =>
        let relname := escape_name tbl.2
        match dictLookup st.tables relname with
        | some cols => columns ++ cols
        | none =>
            match dictLookup st.views relname with
            | some cols => columns ++ cols
            | none => columns) acc
      = acc ++ (l.map (fun tbl =>
          match dictLookup st.tables (escape_name tbl.2) with
          | some cols => cols
          | none => (dictLookup st.views (escape_name tbl.2)).getD [])).flatten by
    simpa using h scoped_tbls []
  intro l
  induction l with
  | nil => intro acc; simp
  | cons x xs ih =>
    intro acc
    simp only [List.foldl_cons, List.map_cons, List.flatten_cons]
    cases htab : dictLookup st.tables (escape_name x.2) with
    | some cols => simp only [htab, ih, List.append_assoc]
    | none =>
      cases hview : dictLookup st.views (escape_name x.2) with
      | some cols => simp only [htab, hview, ih, Option.getD_some, List.append_assoc]
      | none => simp [htab, hview, ih]

/-! ## Vocabulary-set lemmas -/

/-- Membership after a single `set.add`. -/
lemma mem_pySetAdd (s : List String) (y x : String) :
    x ∈ pySetAdd s y ↔ x ∈ s ∨ x = y := by
  unfold pySetAdd
  by_cases h : s.contains y
  · rw [if_pos h]
    have hy : y ∈ s := by simpa using h
    constructor
    · exact Or.inl
    · rintro (hx | rfl)
      · exact hx
      · exact hy
  · rw [if_neg h]
    simp [List.mem_append]

/-- Membership after `set.update` with a list of strings. -/
lemma mem_pySetUpdateList (s l : List String) (x : String) :
    x ∈ pySetUpdateList s l ↔ x ∈ s ∨ x ∈ l := by
  induction l generalizing s with
  | nil => simp [pySetUpdateList]
  | cons y ys ih =>
    have hstep : pySetUpdateList s (y :: ys) = pySetUpdateList (pySetAdd s y) ys := rfl
    rw [hstep, ih, mem_pySetAdd]
    simp [List.mem_cons, or_assoc, or_comm, or_left_comm]

/-- Membership in `set(xs)`. -/
lemma mem_pySetOfList (l : List String) (x : String) :
    x ∈ pySetOfList l ↔ x ∈ l := by
  have h := mem_pySetUpdateList [] l x
  simpa [pySetOfList, pySetUpdateList] using h

/-! ## Catalog mutation claims -/

/-- Claim C3 (failing input): `extend_functions` executes
`metadata[schema][func] = None`, and Python evaluates `metadata[schema]`
before the assignment, so on a freshly constructed catalog — whose functions
map is empty, and no code path in the module ever creates a schema key — the
very first pair raises `KeyError(schema)` instead of registering the
function. The state is returned unchanged together with the offending key. -/
theorem claim3_extend_functions_raises :
    extend_functions [("public", "now")] initState = (initState, some "public") := by
  rfl

set_option maxRecDepth 200000 in
/-- Claim C4 (failing input): `extend_relations` and `extend_columns` call
`self.all_completions.update(name)` with a single STRING, which adds the
string's characters as one-character entries, not the name itself: after
registering relation `orders`, `"orders"` is not in the vocabulary but
`"o"` is; after extending column `id`, `"id"` is not in the vocabulary but
`"i"` is. -/
theorem claim4_update_adds_characters :
    (extend_relations ["orders"] RelKind.tables initState).all_completions.contains "orders"
        = false
  ∧ (extend_relations ["orders"] RelKind.tables initState).all_completions.contains "o" = true
  ∧ ((extend_columns [("orders", "id")] RelKind.tables
        (extend_relations ["orders"] RelKind.tables initState)).1.all_completions.contains "id"
        = false)
  ∧ ((extend_columns [("orders", "id")] RelKind.tables
        (extend_relations ["orders"] RelKind.tables initState)).1.all_completions.contains "i"
        = true) := by
  decide

set_option maxRecDepth 200000 in
/-- Claim C5 (counterexample): with the classifier request
`Column(scope=[("users","u")])` the scope resolver looks up the REFERENCE
name `u` (`tbl[1]`), which is registered neither as a table nor as a view, so
the scope contributes no columns and `get_completions` returns the empty
list — not the single completion `{text:"name", deleteBackCount:2}` the
claim states. -/
theorem claim5_counterexample :
    get_completions "na" [Suggestion.column [("users", "u")]] true stUsers = []
  ∧ get_completions "na" [Suggestion.column [("users", "u")]] true stUsers
      ≠ [{ text := "name", deleteBackCount := 2 }] := by
  decide

set_option maxRecDepth 200000 in
/-- Claim C5 (amended): the end-to-end result holds when the scope's
reference name is the registered table name itself,
`Column(scope=[("users","users")])`: with word-before-cursor `na` the single
candidate is `{text:"name", deleteBackCount:2}`. -/
theorem claim5_amended :
    get_completions "na" [Suggestion.column [("users", "users")]] true stUsers
      = [{ text := "name", deleteBackCount := 2 }] := by
  decide

set_option maxRecDepth 200000 in
/-- Claim C6 (counterexample): dispatching a Function request hands
`dbmetadata['functions'].keys()` — the SCHEMA names — to the anchored
matcher, not the function names flattened across schemas: on a catalog with
`functions = {"sch": {"myfunc": None}}` and an empty word the result is
`[{text:"sch", deleteBackCount:0}]`, which differs from matching against the
flattened function names. -/
theorem claim6_counterexample :
    get_completions "" [Suggestion.function] true stFn
      ≠ find_matches "" (flatten_function_names stFn.functions) true
  ∧ get_completions "" [Suggestion.function] true stFn
      = [{ text := "sch", deleteBackCount := 0 }] := by
  decide

/-- Claim C6 (amended): for every catalog state and word, the Function branch
of `get_completions` matches — anchored — against the top-level keys of the
functions map, i.e. the schema names. -/
theorem claim6_amended (word_before_cursor : String) (st : CatalogState) :
    get_completions word_before_cursor [Suggestion.function] true st
      = find_matches word_before_cursor (dictKeys st.functions) true := by
  rfl

set_option maxRecDepth 200000 in
/-- Claim C7 (counterexample): `extend_keywords` extends the keyword list
itself, and `reset_completions` rebuilds the vocabulary from that CURRENT
list, so after `extend_keywords(["foobarkw"])` followed by
`reset_completions()` the vocabulary still contains `foobarkw`, which is in
neither the static keyword list nor the static function list. -/
theorem claim7_counterexample :
    (reset_completions (extend_keywords ["foobarkw"] initState)).all_completions.contains
        "foobarkw" = true
  ∧ (keywords_static.contains "foobarkw" || functions_static.contains "foobarkw") = false := by
  decide

/-- Claim C7 (amended): immediately after `reset_completions` the databases
list and the tables, views and functions maps are empty, and the vocabulary
equals the union of the CURRENT keyword list (the static baseline plus
whatever `extend_keywords` has appended) and the static function list. -/
theorem claim7_reset (st : CatalogState) :
    (reset_completions st).databases = []
  ∧ (reset_completions st).tables = []
  ∧ (reset_completions st).views = []
  ∧ (reset_completions st).functions = []
  ∧ ∀ x : String,
      x ∈ (reset_completions st).all_completions ↔ x ∈ st.keywords ∨ x ∈ functions_static := by
  refine ⟨rfl, rfl, rfl, rfl, fun x => ?_⟩
  show x ∈ pySetOfList (st.keywords ++ functions_static) ↔ _
  rw [mem_pySetOfList, List.mem_append]

/-! ## Name escaping -/

/-- The executable pattern core agrees with the spec predicate. -/
lemma name_pattern_core_iff (l : List Char) :
    name_pattern_core l = true ↔ SpecNamePatternList l := by
  cases l with
  | nil =>
    refine iff_of_false (by simp [name_pattern_core]) ?_
    rintro ⟨c, cs, h, -, -⟩
    exact List.noConfusion h
  | cons c cs =>
    show (isNameStart c && cs.all isNameCont) = true ↔ _
    rw [Bool.and_eq_true, List.all_eq_true]
    constructor
    · rintro ⟨h1, h2⟩
      exact ⟨c, cs, rfl, h1, h2⟩
    · rintro ⟨c', cs', heq, h1, h2⟩
      injection heq with e1 e2
      subst e1
      subst e2
      exact ⟨h1, h2⟩

/-- The compiled regex-match model agrees with the Python-`re` reading of the
spec pattern. -/
lemma name_pattern_match_iff (s : String) :
    name_pattern_match s = true ↔ SpecNamePatternPy s := by
  unfold name_pattern_match SpecNamePatternPy
  simp only [Bool.or_eq_true, Bool.and_eq_true, beq_iff_eq, name_pattern_core_iff]

/-- Wrapping in quotes changes the string. -/
lemma quoted_ne_self (name : String) : "\"" ++ name ++ "\"" ≠ name := by
  intro h
  have hlen := congrArg String.length h
  have h1 : ("\"" : String).length = 1 := rfl
  simp only [String.length_append, h1] at hlen
  omega

/-- A string of length zero is the empty string. -/
lemma string_eq_empty_of_length (s : String) (h : s.length = 0) : s = "" := by
  cases s with
  | mk l =>
    cases l with
    | nil => rfl
    | cons c cs => exact absurd h (by simp [String.length])

/-- Claim C8 (counterexample): the claim says `escape_name` quotes exactly
the names that are empty or fail the pattern, but the source guards with
Python truthiness (`if name and ...`), so the EMPTY string — which the claim
places on the quoted side — is returned unchanged, not as `\"\"`. -/
theorem claim8_counterexample :
    ¬ ((escape_name "" = "\"" ++ "" ++ "\"") ↔ (("" : String) = "" ∨ ¬ SpecNamePattern "")) := by
  intro h
  exact absurd (h.mpr (Or.inl rfl)) (by decide)

/-- Claim C8 (amended): `escape_name name` returns `'"' + name + '"'` iff
`name` is NON-empty and fails the pattern — where, per Python's `re`, the
pattern's end anchor also accepts a single trailing newline — and returns
`name` unchanged otherwise. -/
theorem claim8_escape_name (name : String) :
    (escape_name name = "\"" ++ name ++ "\"" ↔ (name ≠ "" ∧ ¬ SpecNamePatternPy name))
  ∧ (escape_name name = name ↔ (name = "" ∨ SpecNamePatternPy name)) := by
  unfold escape_name
  by_cases hcond : (name.length != 0 && !(name_pattern_match name)) = true
  · rw [if_pos hcond]
    simp only [Bool.and_eq_true, bne_iff_ne, ne_eq, Bool.not_eq_true'] at hcond
    obtain ⟨hne0, hnm⟩ := hcond
    have hne : name ≠ "" := by
      intro h
      subst h
      exact hne0 rfl
    have hnotspec : ¬ SpecNamePatternPy name := by
      intro hs
      rw [(name_pattern_match_iff name).mpr hs] at hnm
      exact absurd hnm (by simp)
    constructor
    · exact iff_of_true rfl ⟨hne, hnotspec⟩
    · refine iff_of_false (fun h => quoted_ne_self name h) ?_
      rintro (h | h)
      · exact hne h
      · exact hnotspec h
  · rw [if_neg hcond]
    have hdisj : name = "" ∨ SpecNamePatternPy name := by
      have h2 : (name.length != 0) = false ∨ (!(name_pattern_match name)) = false := by
        cases hA : (name.length != 0) <;> cases hB : (!(name_pattern_match name)) <;>
          simp_all
      rcases h2 with h2 | h2
      · left
        exact string_eq_empty_of_length name (by simpa using h2)
      · right
        exact (name_pattern_match_iff name).mp (by simpa using h2)
    constructor
    · refine iff_of_false (fun h => quoted_ne_self name h.symm) (fun h => ?_)
      rcases hdisj with h' | h'
      · exact h.1 h'
      · exact h.2 h'
    · exact iff_of_true rfl hdisj

/-! ## Column-extension error behaviour -/

/-- Unfold one cons cell of a dict lookup. -/
lemma dictLookup_cons {α : Type} (k0 : String) (v0 : α) (rest : List (String × α)) (k' : String) :
    dictLookup ((k0, v0) :: rest) k' = if k0 == k' then some v0 else dictLookup rest k' := by
  unfold dictLookup
  cases h : (k0 == k') <;> simp [List.find?, h]

/-- Lookup after a dict assignment. -/
lemma dictLookup_dictInsert {α : Type} (d : List (String × α)) (k k' : String) (v : α) :
    dictLookup (dictInsert d k v) k' = if k' == k then some v else dictLookup d k' := by
  induction d with
  | nil =>
    show dictLookup [(k, v)] k' = _
    rw [dictLookup_cons]
    by_cases h : k' = k
    · simp [h]
    · simp [h, Ne.symm h, dictLookup]
  | cons p rest ih =>
    obtain ⟨k0, v0⟩ := p
    show dictLookup (if k0 == k then (k0, v) :: rest else (k0, v0) :: dictInsert rest k v) k' = _
    by_cases h0 : k0 = k
    · rw [if_pos (by simp [h0]), dictLookup_cons, dictLookup_cons]
      by_cases h : k' = k
      · have he : k0 = k' := by rw [h0, h]
        simp [he, h]
      · have hne : k0 ≠ k' := by
          rw [h0]
          exact fun e => h e.symm
        simp [hne, h]
    · rw [if_neg (by simpa using h0), dictLookup_cons, dictLookup_cons]
      by_cases h : k0 = k'
      · have hne : k' ≠ k := fun e => h0 (h.trans e)
        simp [h, hne]
      · simp [h, ih]

/-- Reading back the touched kind after the column-extension step. -/
lemma relmap_step (st : CatalogState) (kind : RelKind) (m : List (String × List String))
    (a : List String) :
    ({ st.setRelmap kind m with all_completions := a }).relmap kind = m := by
  cases kind <;> rfl

/-- The step's vocabulary is the one written by the step. -/
lemma all_completions_step (st : CatalogState) (kind : RelKind)
    (m : List (String × List String)) (a : List String) :
    ({ st.setRelmap kind m with all_completions := a }).all_completions = a := by
  rfl

/-- `setRelmap` does not touch the vocabulary. -/
lemma all_completions_setRelmap (st : CatalogState) (kind : RelKind)
    (m : List (String × List String)) :
    (st.setRelmap kind m).all_completions = st.all_completions := by
  cases kind <;> rfl

/-- Adding characters preserves existing vocabulary members. -/
lemma mem_foldl_pySetAdd_chars_mono (l : List Char) :
    ∀ (s : List String) (x : String), x ∈ s →
      x ∈ l.foldl (fun acc c => pySetAdd acc (String.mk [c])) s := by
  induction l with
  | nil => intro s x h; exact h
  | cons d ds ih =>
    intro s x h
    exact ih _ x ((mem_pySetAdd s (String.mk [d]) x).mpr (Or.inl h))

/-- All the added characters are vocabulary members afterwards. -/
lemma mem_foldl_pySetAdd_chars (l : List Char) :
    ∀ (s : List String) (c : Char), c ∈ l →
      String.mk [c] ∈ l.foldl (fun acc cc => pySetAdd acc (String.mk [cc])) s := by
  induction l with
  | nil => intro s c h; cases h
  | cons d ds ih =>
    intro s c h
    rcases List.mem_cons.mp h with rfl | h'
    · exact mem_foldl_pySetAdd_chars_mono ds _ _ ((mem_pySetAdd _ _ _).mpr (Or.inr rfl))
    · exact ih _ c h'

/-- `set.update(string)` preserves existing members. -/
lemma mem_pySetUpdateChars_of_mem (s : List String) (str x : String) (h : x ∈ s) :
    x ∈ pySetUpdateChars s str :=
  mem_foldl_pySetAdd_chars_mono str.data s x h

/-- `set.update(string)` adds every character of the string. -/
lemma mem_pySetUpdateChars_char (s : List String) (str : String) (c : Char) (h : c ∈ str.data) :
    String.mk [c] ∈ pySetUpdateChars s str :=
  mem_foldl_pySetAdd_chars str.data s c h

/-- The column-extension loop never creates relation keys: a key absent at the
start is still absent when the loop stops (normally or with a `KeyError`). -/
lemma extend_columns_go_lookup_none (kind : RelKind) (l : List (String × String)) :
    ∀ (st : CatalogState) (r : String), dictLookup (st.relmap kind) r = none →
      dictLookup (((extend_columns_go kind l st).1).relmap kind) r = none := by
  induction l with
  | nil => intro st r h; exact h
  | cons p rest ih =>
    intro st r h
    obtain ⟨relname, column⟩ := p
    cases hl : dictLookup (st.relmap kind) relname with
    | none => simpa [extend_columns_go, hl] using h
    | some cols =>
      simp only [extend_columns_go, hl]
      apply ih
      rw [relmap_step, dictLookup_dictInsert]
      have hne : ¬ (r == relname) = true := by
        simp only [beq_iff_eq]
        intro e
        rw [e, hl] at h
        exact Option.noConfusion h
      rw [if_neg hne]
      exact h

/-- The column-extension loop never deletes relation keys either. -/
lemma extend_columns_go_lookup_isSome (kind : RelKind) (l : List (String × String)) :
    ∀ (st : CatalogState) (r : String), (dictLookup (st.relmap kind) r).isSome = true →
      (dictLookup (((extend_columns_go kind l st).1).relmap kind) r).isSome = true := by
  induction l with
  | nil => intro st r h; exact h
  | cons p rest ih =>
    intro st r h
    obtain ⟨relname, column⟩ := p
    cases hl : dictLookup (st.relmap kind) relname with
    | none => simpa [extend_columns_go, hl] using h
    | some cols =>
      simp only [extend_columns_go, hl]
      apply ih
      rw [relmap_step, dictLookup_dictInsert]
      by_cases he : (r == relname) = true
      · rw [if_pos he]
        rfl
      · rw [if_neg he]
        exact h

/-- Vocabulary membership is monotone along the column-extension loop. -/
lemma extend_columns_go_vocab_mono (kind : RelKind) (l : List (String × String)) :
    ∀ (st : CatalogState) (x : String), x ∈ st.all_completions →
      x ∈ ((extend_columns_go kind l st).1).all_completions := by
  induction l with
  | nil => intro st x h; exact h
  | cons p rest ih =>
    intro st x h
    obtain ⟨relname, column⟩ := p
    cases hl : dictLookup (st.relmap kind) relname with
    | none => simpa [extend_columns_go, hl] using h
    | some cols =>
      simp only [extend_columns_go, hl]
      apply ih
      rw [all_completions_step]
      apply mem_pySetUpdateChars_of_mem
      rw [all_completions_setRelmap]
      exact h

/-- If any pair of the loop's input names an unregistered relation, the loop
stops with a `KeyError`. -/
lemma extend_columns_go_error (kind : RelKind) (l : List (String × String)) :
    ∀ (st : CatalogState) (r c : String), (r, c) ∈ l →
      dictLookup (st.relmap kind) r = none →
      (extend_columns_go kind l st).2.isSome = true := by
  induction l with
  | nil => intro st r c h; cases h
  | cons p rest ih =>
    intro st r c hmem hnone
    obtain ⟨relname, column⟩ := p
    rcases List.mem_cons.mp hmem with heq | hmem'
    · injection heq with h1 h2
      subst h1
      subst h2
      simp [extend_columns_go, hnone]
    · cases hl : dictLookup (st.relmap kind) relname with
      | none => simp [extend_columns_go, hl]
      | some cols =>
        simp only [extend_columns_go, hl]
        apply ih _ r c hmem'
        rw [relmap_step, dictLookup_dictInsert]
        have hne : ¬ (r == relname) = true := by
          simp only [beq_iff_eq]
          intro e
          rw [e, hl] at hnone
          exact Option.noConfusion hnone
        rw [if_neg hne]
        exact hnone

/-- Processing the loop's input around the first failing pair: the pairs
before the first unregistered relation are fully processed, then the loop
stops with that relation's `KeyError`, keeping the partially-mutated state. -/
lemma extend_columns_go_splits (kind : RelKind) (bs : List (String × String)) :
    ∀ (st : CatalogState) (r c : String) (rest : List (String × String)),
      (∀ p ∈ bs, (dictLookup (st.relmap kind) p.1).isSome = true) →
      dictLookup (st.relmap kind) r = none →
      extend_columns_go kind (bs ++ (r, c) :: rest) st
          = ((extend_columns_go kind bs st).1, some r)
      ∧ (extend_columns_go kind bs st).2 = none := by
  induction bs with
  | nil =>
    intro st r c rest hb hmiss
    refine ⟨?_, rfl⟩
    simp [extend_columns_go, hmiss]
  | cons q qs ih =>
    intro st r c rest hb hmiss
    obtain ⟨rn, cn⟩ := q
    have h0 : (dictLookup (st.relmap kind) rn).isSome = true :=
      hb (rn, cn) (List.mem_cons_self _ _)
    cases hl : dictLookup (st.relmap kind) rn with
    | none =>
      rw [hl] at h0
      exact absurd h0 (by simp)
    | some cols =>
      show extend_columns_go kind ((rn, cn) :: (qs ++ (r, c) :: rest)) st = _ ∧ _
      simp only [extend_columns_go, hl]
      apply ih
      · intro p hp
        rw [relmap_step, dictLookup_dictInsert]
        by_cases he : (p.1 == rn) = true
        · rw [if_pos he]
          rfl
        · rw [if_neg he]
          exact hb p (List.mem_cons_of_mem _ hp)
      · rw [relmap_step, dictLookup_dictInsert]
        have hne : ¬ (r == rn) = true := by
          simp only [beq_iff_eq]
          intro e
          rw [e, hl] at hmiss
          exact Option.noConfusion hmiss
        rw [if_neg hne]
        exact hmiss

/-- When every pair of the loop's input is registered, the characters of every
processed column are in the vocabulary of the resulting state. -/
lemma extend_columns_go_success_chars (kind : RelKind) (bs : List (String × String)) :
    ∀ (st : CatalogState),
      (∀ p ∈ bs, (dictLookup (st.relmap kind) p.1).isSome = true) →
      ∀ p ∈ bs, ∀ ch ∈ (p.2 : String).data,
        String.mk [ch] ∈ ((extend_columns_go kind bs st).1).all_completions := by
  induction bs with
  | nil =>
    intro st hb p hp
    cases hp
  | cons q qs ih =>
    intro st hb p hp
    obtain ⟨rn, cn⟩ := q
    have h0 : (dictLookup (st.relmap kind) rn).isSome = true :=
      hb (rn, cn) (List.mem_cons_self _ _)
    cases hl : dictLookup (st.relmap kind) rn with
    | none =>
      rw [hl] at h0
      exact absurd h0 (by simp)
    | some cols =>
      simp only [extend_columns_go, hl]
      have hb' : ∀ p2 ∈ qs,
          (dictLookup
            (({ st.setRelmap kind (dictInsert (st.relmap kind) rn (cols ++ [cn])) with
                all_completions := pySetUpdateChars
                  (st.setRelmap kind (dictInsert (st.relmap kind) rn (cols ++ [cn]))).all_completions
                  cn }).relmap kind) p2.1).isSome = true := by
        intro p2 hp2
        rw [relmap_step, dictLookup_dictInsert]
        by_cases he : (p2.1 == rn) = true
        · rw [if_pos he]
          rfl
        · rw [if_neg he]
          exact hb p2 (List.mem_cons_of_mem _ hp2)
      rcases List.mem_cons.mp hp with heq | hp'
      · subst heq
        intro ch hch
        apply extend_columns_go_vocab_mono
        rw [all_completions_step]
        exact mem_pySetUpdateChars_char _ _ _ hch
      · intro ch hch
        exact ih _ hb' p hp' ch hch

/-- Claim C9: if `extend_columns` is called with a pair whose escaped relation
name is not a key of the kind's map, the call raises a detectable lookup
failure, and no entry for that relation is created: its escaped name is still
absent from the map when the call stops. -/
theorem claim9_extend_columns_lookup_failure
    (st : CatalogState) (kind : RelKind) (pairs : List (String × String))
    (rel col : String) (hmem : (rel, col) ∈ pairs)
    (hmiss : dictLookup (st.relmap kind) (escape_name rel) = none) :
    (extend_columns pairs kind st).2.isSome = true
  ∧ dictLookup (((extend_columns pairs kind st).1).relmap kind) (escape_name rel) = none := by
  unfold extend_columns
  constructor
  · exact extend_columns_go_error kind _ st (escape_name rel) (escape_name col)
      (List.mem_map_of_mem _ hmem) hmiss
  · exact extend_columns_go_lookup_none kind _ st (escape_name rel) hmiss

set_option maxRecDepth 200000 in
/-- Witness for claim C9 at a concrete input: relation `zzz` is unregistered
in a fresh catalog, so extending its columns fails and creates no entry. -/
theorem claim9_witness :
    ((("zzz" : String), ("c" : String)) ∈ [(("zzz" : String), ("c" : String))]
  ∧ dictLookup (initState.relmap RelKind.tables) (escape_name "zzz") = none)
  ∧ ((extend_columns [("zzz", "c")] RelKind.tables initState).2.isSome = true
  ∧ dictLookup (((extend_columns [("zzz", "c")] RelKind.tables initState).1).relmap RelKind.tables)
      (escape_name "zzz") = none) :=
  ⟨⟨by decide, by rfl⟩,
   claim9_extend_columns_lookup_failure initState RelKind.tables [("zzz", "c")] "zzz" "c"
     (by decide) (by rfl)⟩

set_option maxRecDepth 200000 in
/-- Claim C10 (counterexample): on `extend_columns([("t","name"),("zzz","c")],
tables)` over a catalog registering only `t`, the failure is raised at `zzz`
and `name` has indeed been appended to `t`'s column list — but `"name"` was
NOT added to the global vocabulary as the claim states: `set.update("name")`
added its characters instead. -/
theorem claim10_counterexample :
    (extend_columns [("t", "name"), ("zzz", "c")] RelKind.tables stT).2 = some "zzz"
  ∧ dictLookup (((extend_columns [("t", "name"), ("zzz", "c")] RelKind.tables stT).1).relmap
        RelKind.tables) "t" = some ["*", "name"]
  ∧ ((extend_columns [("t", "name"), ("zzz", "c")] RelKind.tables stT).1).all_completions.contains
        "name" = false
  ∧ ((extend_columns [("t", "name"), ("zzz", "c")] RelKind.tables stT).1).all_completions.contains
        "n" = true := by
  decide

/-- Claim C10 (amended): `extend_columns` is not atomic: writing the pair list
as `before ++ (rel, col) :: after` where every pair of `before` names a
registered relation and `rel`'s escaped name is unregistered, the call stops
at `(rel, col)` with `KeyError(escape_name rel)`, the resulting state is
exactly the state after processing `before` alone (whose own run raises no
error) — so the columns of `before` are already appended to their relations'
column lists — and the CHARACTERS of each such column (not the column string
itself, per the `set.update` slip) are already in the global vocabulary;
nothing is rolled back. -/
theorem claim10_partial_mutation (st : CatalogState) (kind : RelKind)
    (before after : List (String × String)) (rel col : String)
    (hbefore : ∀ p ∈ before, (dictLookup (st.relmap kind) (escape_name p.1)).isSome = true)
    (hmiss : dictLookup (st.relmap kind) (escape_name rel) = none) :
    extend_columns (before ++ (rel, col) :: after) kind st
      = ((extend_columns before kind st).1, some (escape_name rel))
  ∧ (extend_columns before kind st).2 = none
  ∧ ∀ p ∈ before, ∀ ch ∈ (escape_name p.2).data,
      String.mk [ch] ∈ ((extend_columns (before ++ (rel, col) :: after) kind st).1).all_completions := by
  unfold extend_columns
  rw [List.map_append, List.map_cons]
  have hb' : ∀ p ∈ before.map (fun p => (escape_name p.1, escape_name p.2)),
      (dictLookup (st.relmap kind) p.1).isSome = true := by
    intro p hp
    rcases List.mem_map.mp hp with ⟨q, hq, rfl⟩
    exact hbefore q hq
  have hmain := extend_columns_go_splits kind
    (before.map (fun p => (escape_name p.1, escape_name p.2))) st
    (escape_name rel) (escape_name col)
    (after.map (fun p => (escape_name p.1, escape_name p.2))) hb' hmiss
  refine ⟨hmain.1, hmain.2, ?_⟩
  intro p hp ch hch
  rw [hmain.1]
  exact extend_columns_go_success_chars kind _ st hb'
    (escape_name p.1, escape_name p.2) (List.mem_map_of_mem _ hp) ch hch

set_option maxRecDepth 200000 in
/-- Witness for claim C10 at a concrete input: `before = [("t","name")]` is
registered, `zzz` is not; the call stops at `zzz` with the prefix processed. -/
theorem claim10_witness :
    ((∀ p ∈ [(("t" : String), ("name" : String))],
        (dictLookup (stT.relmap RelKind.tables) (escape_name p.1)).isSome = true)
  ∧ dictLookup (stT.relmap RelKind.tables) (escape_name "zzz") = none)
  ∧ (extend_columns ([("t", "name")] ++ ("zzz", "c") :: []) RelKind.tables stT
      = ((extend_columns [("t", "name")] RelKind.tables stT).1, some (escape_name "zzz"))
  ∧ (extend_columns [("t", "name")] RelKind.tables stT).2 = none
  ∧ ∀ p ∈ [(("t" : String), ("name" : String))], ∀ ch ∈ (escape_name p.2).data,
      String.mk [ch] ∈ ((extend_columns ([("t", "name")] ++ ("zzz", "c") :: []) RelKind.tables
        stT).1).all_completions) :=
  ⟨⟨by decide, by decide⟩,
   claim10_partial_mutation stT RelKind.tables [("t", "name")] [] "zzz" "c"
     (by decide) (by decide)⟩
